import Mathlib

/-
Verification of the signaling core of nikhilsahni7/golang-video-audio-call-app
(pkg/signaling: message.go, client.go, room.go, hub.go).

Shallow embedding notes.

Go maps keyed by strings are modeled as association lists with unique keys
(mapLookup / mapInsert / mapErase); a Room stores the ids of its member
clients while the client objects themselves live in a separate Store
(List (String, Client)), mirroring the Go heap where Room.clients maps an
id to a pointer and the key always equals the pointed client ID.

Go mutexes matter here because sync.Mutex is NOT reentrant: a goroutine
that calls Lock on a mutex it already holds blocks forever.  Three call
chains in client.go re-acquire a held client mutex:
  Client.Send    (buffer full)  -> Client.Close  (Close locks c.mutex again)
  Client.SetHost (flag changed) -> Client.Send   (Send locks c.mutex again)
Operations therefore return a result type Res: Res.ok is a completed call,
Res.deadlock is a call whose goroutine blocked forever re-acquiring the
client mutex; the payload of Res.deadlock is the heap state at the moment
of blocking (mutations performed before the blocking Lock are visible).

Channels: the per-client send channel (capacity 100) is the Client.pending
list plus the Client.sendClosed flag; the per-room broadcast channel
(capacity 100) is the Room.broadcastQ list.  Enqueueing on the broadcast
channel is modeled as list append; its capacity-100 blocking behavior is
not exercised by any theorem below.  One iteration of Room.broadcastLoop
is Room.broadcastStep: it re-reads the membership at delivery time and
skips exactly the clients whose id equals the non-empty From field of the
message; the excludeClientID argument of Room.Broadcast is used by the
source only to build a debug log line and has no effect on delivery.

The JSON wire form of a Message (message.go) is modeled structurally:
a top-level object is List (String, JLit); the open data payload carries
the value shapes the relay itself populates (strings, booleans, string
arrays) as JPrim.  Go json.Marshal emits struct fields in declaration
order, drops omitempty fields at their zero value, and emits map keys in
sorted order; the canonical Lean form of the Go data map is therefore a
key-sorted association list (sortByKey).
-/

/-- Values the relay stores inside the open data payload of a Message:
strings (roomId, clientId, hostId, userId), booleans (isHost) and string
arrays (users). -/
inductive JPrim where
  | jpStr : String → JPrim
  | jpBool : Bool → JPrim
  | jpArrStr : List String → JPrim
deriving DecidableEq, Repr

/-- Top-level JSON values appearing in the wire form of a Message:
strings (type, from, to), booleans (isHost) and one nested object (data). -/
inductive JLit where
  | jStr : String → JLit
  | jBool : Bool → JLit
  | jObj : List (String × JPrim) → JLit
deriving DecidableEq, Repr

/-- message.go Message.  Go field names type / from / to / data / isHost map
to type / fromID / toID / data / isHost (from and to are Lean keywords).  The data
map is kept in canonical key-sorted association-list form. -/
structure Message where
  type : String
  fromID : String := ""
  toID : String := ""
  data : List (String × JPrim) := []
  isHost : Bool := false
deriving DecidableEq, Repr

/-- client.go Client.  conn and hub pointers are external; the Room pointer
is the roomID.  pending models the buffered send channel content,
sendClosed the channel having been closed by Close. -/
structure Client where
  id : String
  roomID : String := ""
  isHost : Bool := false
  closed : Bool := false
  sendClosed : Bool := false
  pending : List Message := []
deriving DecidableEq, Repr

/-- room.go Room.  clients holds the keys of the Go map; the client objects
live in the Store.  broadcastQ models the buffered broadcast channel. -/
structure Room where
  id : String
  clients : List String := []
  hostID : String := ""
  broadcastQ : List Message := []
deriving DecidableEq, Repr

/-- hub.go Hub: the registry of rooms. -/
structure Hub where
  rooms : List (String × Room)
deriving DecidableEq, Repr

/-- The heap of live client objects, keyed by client id. -/
abbrev Store := List (String × Client)

/-- Result of an operation run by one goroutine: ok is a completed call,
deadlock is a call that blocked forever re-acquiring a non-reentrant mutex
already held by the same goroutine; the payload is the state at the moment
of blocking. -/
inductive Res (σ : Type) where
  | ok : σ → Res σ
  | deadlock : σ → Res σ
deriving DecidableEq, Repr

/-- State reached by an operation, whether it returned or blocked. -/
def stateOf {σ : Type} : Res σ → σ
  | .ok s => s
  | .deadlock s => s

/-- True when the operation returned (did not block). -/
def Res.isOk {σ : Type} : Res σ → Bool
  | .ok _ => true
  | .deadlock _ => false

/-- Go map lookup on an association list. -/
def mapLookup {α : Type} : List (String × α) → String → Option α
  | [], _ => none
  | (k2, v) :: rest, k => if k2 = k then some v else mapLookup rest k

/-- Go map assignment m[k] = v: replace in place or append. -/
def mapInsert {α : Type} : List (String × α) → String → α → List (String × α)
  | [], k, v => [(k, v)]
  | (k2, v2) :: rest, k, v =>
    if k2 = k then (k, v) :: rest else (k2, v2) :: mapInsert rest k v

/-- Go delete(m, k). -/
def mapErase {α : Type} (m : List (String × α)) (k : String) : List (String × α) :=
  m.filter (fun p => decide (p.1 ≠ k))

/-- Key-set update for the Room membership map. -/
def insertID (ids : List String) (id : String) : List String :=
  if id ∈ ids then ids else ids ++ [id]

/-- Capacity of the per-client send channel (client.go NewClient). -/
def sendCapacity : Nat := 100

/-- client.go SetHost notification to the client itself:
Type host-status, To c.ID, Data {isHost}. -/
def hostStatusMsg (id : String) (h : Bool) : Message :=
  { type := "host-status", toID := id, data := [("isHost", JPrim.jpBool h)] }

/-- client.go SetHost broadcast to the room: Type host-change, From c.ID,
Data {hostId, isHost}.  Unreachable in the source: it sits after the
self-deadlocking Send. -/
def hostChangeSelfMsg (id : String) (h : Bool) : Message :=
  { type := "host-change", fromID := id,
    data := [("hostId", JPrim.jpStr id), ("isHost", JPrim.jpBool h)] }

/-- room.go AddClient notification to a newcomer when a host is already
set: Type host-change, Data {hostId, isHost false}. -/
def hostChangeExistingMsg (hostID : String) : Message :=
  { type := "host-change",
    data := [("hostId", JPrim.jpStr hostID), ("isHost", JPrim.jpBool false)] }

/-- room.go RemoveClient broadcast after electing a successor host:
Type host-change, Data {hostId}. -/
def hostChangeNewHostMsg (hostID : String) : Message :=
  { type := "host-change", data := [("hostId", JPrim.jpStr hostID)] }

/-- room.go SetHost per-recipient notification: Type host-change,
Data {hostId, isHost: recipient id equals the new host id}. -/
def hostChangeAllMsg (hostID recipientID : String) : Message :=
  { type := "host-change",
    data := [("hostId", JPrim.jpStr hostID),
             ("isHost", JPrim.jpBool (decide (recipientID = hostID)))] }

/-- client.go Close broadcast: Type user-left, From c.ID, Data {userId}. -/
def userLeftMsg (id : String) : Message :=
  { type := "user-left", fromID := id, data := [("userId", JPrim.jpStr id)] }

/-- client.go readPump join handling: Type user-joined, From c.ID, To
empty, Data {userId}. -/
def userJoinedMsg (id : String) : Message :=
  { type := "user-joined", fromID := id, data := [("userId", JPrim.jpStr id)] }

/-- client.go readPump join handling reply: Type user-list, To c.ID,
Data {users}. -/
def userListMsg (id : String) (users : List String) : Message :=
  { type := "user-list", toID := id, data := [("users", JPrim.jpArrStr users)] }

/-- client.go Client.Send.  The method starts with c.mutex.Lock(); locked
records whether the calling goroutine already holds that mutex (sync.Mutex
is not reentrant, so Lock then blocks forever).  If the session is closed
the message is silently dropped.  If the buffer holds sendCapacity
messages the source calls c.Close(), whose own first statement is
c.mutex.Lock() on the mutex Send still holds: the goroutine blocks with
the closed flag still false and the message not enqueued. -/
def Client.Send (locked : Bool) (c : Client) (m : Message) : Res Client :=
  if locked then .deadlock c
  else if c.closed then .ok c
  else if c.pending.length < sendCapacity then
    .ok { c with pending := c.pending ++ [m] }
  else .deadlock c

/-- client.go Client.SetHost.  Acquires c.mutex for the whole body.  When
the flag already has the requested value it returns without side effects.
Otherwise it flips the flag and calls c.Send, which re-locks the held
mutex and blocks; the host-status message is never enqueued and the
closing Room.Broadcast (returned as the message list) is never reached. -/
def Client.SetHost (c : Client) (h : Bool) : Res (Client × List Message) :=
  if c.isHost = h then .ok (c, [])
  else
    match Client.Send true { c with isHost := h } (hostStatusMsg c.id h) with
    | .deadlock c2 => .deadlock (c2, [])
    | .ok c2 => .ok (c2, [hostChangeSelfMsg c2.id h])

/-- room.go NewRoom (the spawned broadcastLoop goroutine is modeled by
explicit Room.broadcastStep invocations). -/
def freshRoom (id : String) : Room :=
  { id := id, clients := [], hostID := "", broadcastQ := [] }

/-- room.go AddClient.  Inserts the client into the membership map, then:
if the insertion leaves the map at size 1 and no host is set, records the
client as host and calls Client.SetHost true (which completes only when
the flag is already true, and otherwise blocks forever inside its nested
Send before the host-status message is enqueued); else, if a host id is
already set, sends the newcomer a host-change announcing it. -/
def Room.AddClient (cs : Store) (r : Room) (c : Client) : Res (Store × Room) :=
  let cs1 := mapInsert cs c.id c
  let r1 : Room := { r with clients := insertID r.clients c.id }
  if r1.clients.length = 1 ∧ r.hostID = "" then
    let r2 : Room := { r1 with hostID := c.id }
    match Client.SetHost c true with
    | .ok (c2, msgs) =>
      .ok (mapInsert cs1 c.id c2, { r2 with broadcastQ := r2.broadcastQ ++ msgs })
    | .deadlock (c2, _) => .deadlock (mapInsert cs1 c.id c2, r2)
  else if r.hostID ≠ "" then
    match Client.Send false c (hostChangeExistingMsg r.hostID) with
    | .ok c2 => .ok (mapInsert cs1 c.id c2, r1)
    | .deadlock c2 => .deadlock (mapInsert cs1 c.id c2, r1)
  else .ok (cs1, r1)

/-- room.go RemoveClient.  No-op when the id is absent.  When the removed
client was the host and members remain, the first remaining client in
iteration order becomes host (Go map iteration order is arbitrary; the
model iterates the association list in place) and a host-change carrying
only hostId is pushed on the broadcast channel.  The flag of the elected
client is not touched and no client mutex is taken: the call completes. -/
def Room.RemoveClient (r : Room) (clientID : String) : Room :=
  if clientID ∈ r.clients then
    let remaining := r.clients.filter (fun x => decide (x ≠ clientID))
    if clientID = r.hostID ∧ remaining ≠ [] then
      match remaining with
      | newHostID :: _ =>
        { r with clients := remaining, hostID := newHostID,
                 broadcastQ := r.broadcastQ ++ [hostChangeNewHostMsg newHostID] }
      | [] => { r with clients := remaining }
    else { r with clients := remaining }
  else r

/-- room.go SetHost step: client.SetHost(true) on the new host looked up
from the membership map (the lookup mirrors the guarded map access of the
source; members are always in the store). -/
def setHostStep1 (cs : Store) (r : Room) (clientID : String) : Res (Store × Room) :=
  match mapLookup cs clientID with
  | none => .ok (cs, r)
  | some cl =>
    match Client.SetHost cl true with
    | .ok (c2, msgs) =>
      .ok (mapInsert cs clientID c2, { r with broadcastQ := r.broadcastQ ++ msgs })
    | .deadlock (c2, _) => .deadlock (mapInsert cs clientID c2, r)

/-- room.go SetHost step: remove host status from the previous host when
one exists, is distinct from the new host and is still a member. -/
def setHostStep2 (cs : Store) (r : Room) (previousHost clientID : String) :
    Res (Store × Room) :=
  if previousHost ≠ "" ∧ previousHost ≠ clientID then
    match mapLookup cs previousHost with
    | none => .ok (cs, r)
    | some prev =>
      match Client.SetHost prev false with
      | .ok (p2, msgs) =>
        .ok (mapInsert cs previousHost p2, { r with broadcastQ := r.broadcastQ ++ msgs })
      | .deadlock (p2, _) => .deadlock (mapInsert cs previousHost p2, r)
  else .ok (cs, r)

/-- room.go SetHost closing loop: send every member an individualized
host-change.  A full recipient queue makes that Send call Close on the
held mutex and the whole loop blocks there. -/
def sendHostChangeAll (cs : Store) (ids : List String) (hostID : String) : Res Store :=
  match ids with
  | [] => .ok cs
  | id :: rest =>
    match mapLookup cs id with
    | none => sendHostChangeAll cs rest hostID
    | some c =>
      match Client.Send false c (hostChangeAllMsg hostID c.id) with
      | .ok c2 => sendHostChangeAll (mapInsert cs id c2) rest hostID
      | .deadlock c2 => .deadlock (mapInsert cs id c2)

/-- room.go SetHost.  Returns false without mutation when the id is not a
member.  Otherwise records the new host id, then runs the three side
effect steps; the boolean true of a successful run is returned only by a
call that completes (the payload boolean of a deadlock result is never
observed by any caller). -/
def Room.SetHost (cs : Store) (r : Room) (clientID : String) :
    Res (Store × Room × Bool) :=
  if clientID ∈ r.clients then
    let previousHost := r.hostID
    let r1 : Room := { r with hostID := clientID }
    match setHostStep1 cs r1 clientID with
    | .deadlock (cs2, r2) => .deadlock (cs2, r2, false)
    | .ok (cs2, r2) =>
      match setHostStep2 cs2 r2 previousHost clientID with
      | .deadlock (cs3, r3) => .deadlock (cs3, r3, false)
      | .ok (cs3, r3) =>
        match sendHostChangeAll cs3 r3.clients r3.hostID with
        | .deadlock cs4 => .deadlock (cs4, r3, false)
        | .ok cs4 => .ok (cs4, r3, true)
  else .ok (cs, r, false)

/-- room.go GetClients: snapshot of the member ids (the callers use only
the ID field of the returned clients). -/
def Room.GetClients (r : Room) : List String := r.clients

/-- room.go IsEmpty. -/
def Room.IsEmpty (r : Room) : Bool := r.clients.isEmpty

/-- room.go Broadcast: reads the membership under a read lock only to log
the intended recipients, then pushes the message on the broadcast channel.
The excludeClientID argument influences nothing but that log line. -/
def Room.Broadcast (r : Room) (m : Message) (excludeClientID : String) : Room :=
  { r with broadcastQ := r.broadcastQ ++ [m] }

/-- room.go broadcastLoop recipient selection for one message: the loop
re-reads the membership at delivery time and skips a client exactly when
the From field of the message is non-empty and equals the client id. -/
def deliverRecipients (ids : List String) (m : Message) : List String :=
  ids.filter (fun id => decide (¬ (m.fromID = id ∧ m.fromID ≠ "")))

/-- room.go broadcastLoop delivery of one message to the selected
recipients via Client.Send (no client mutex is held by the loop; a Send
hitting a full queue blocks the loop forever). -/
def sendToRecipients (cs : Store) (ids : List String) (m : Message) : Res Store :=
  match ids with
  | [] => .ok cs
  | id :: rest =>
    match mapLookup cs id with
    | none => sendToRecipients cs rest m
    | some c =>
      match Client.Send false c m with
      | .ok c2 => sendToRecipients (mapInsert cs id c2) rest m
      | .deadlock c2 => .deadlock (mapInsert cs id c2)

/-- One iteration of room.go broadcastLoop: take the next queued message,
select recipients from the membership as it is now, send to each. -/
def Room.broadcastStep (cs : Store) (r : Room) : Res (Store × Room) :=
  match r.broadcastQ with
  | [] => .ok (cs, r)
  | m :: rest =>
    match sendToRecipients cs (deliverRecipients r.clients m) m with
    | .ok cs2 => .ok (cs2, { r with broadcastQ := rest })
    | .deadlock cs2 => .deadlock (cs2, { r with broadcastQ := rest })

/-- hub.go NewHub. -/
def Hub.NewHub : Hub := ⟨[]⟩

/-- hub.go GetRoom: return the registered room or register a fresh one. -/
def Hub.GetRoom (h : Hub) (roomID : String) : Hub × Room :=
  match mapLookup h.rooms roomID with
  | some r => (h, r)
  | none => (⟨mapInsert h.rooms roomID (freshRoom roomID)⟩, freshRoom roomID)

/-- hub.go RemoveRoom: delete the entry only when it exists and its
membership is empty. -/
def Hub.RemoveRoom (h : Hub) (roomID : String) : Hub :=
  match mapLookup h.rooms roomID with
  | some r => if r.clients.isEmpty then ⟨mapErase h.rooms roomID⟩ else h
  | none => h

/-- hub.go GetActiveRooms: the registered room ids. -/
def Hub.GetActiveRooms (h : Hub) : List String := h.rooms.map (fun p => p.1)

/-- client.go Close, room and hub side: broadcast user-left excluding
nobody, remove the client from its room, prune the room from the registry
when it became empty (the Room pointer of the session is resolved through
the registry by room id; rooms reachable from a live client are
registered). -/
def closeRoomSide (h : Hub) (roomID clientID : String) : Hub :=
  match mapLookup h.rooms roomID with
  | none => h
  | some r =>
    let r2 := Room.RemoveClient (Room.Broadcast r (userLeftMsg clientID) "") clientID
    let h2 : Hub := ⟨mapInsert h.rooms roomID r2⟩
    if r2.clients.isEmpty then Hub.RemoveRoom h2 roomID else h2

/-- client.go Close body, run once per session: set the closed flag,
broadcast user-left, close the send channel and the connection, remove the
session from its room and prune the room if now empty. -/
def closeBody (cs : Store) (h : Hub) (clientID : String) (c : Client) : Store × Hub :=
  (mapInsert cs clientID { c with closed := true, sendClosed := true },
   closeRoomSide h c.roomID c.id)

/-- client.go Close, called by a goroutine that does not hold the client
mutex (readPump and writePump call it this way; the call from Send on a
full buffer instead blocks at the initial Lock and is modeled inside
Client.Send).  A second call finds the closed flag set and returns with
nothing changed. -/
def Client.Close (cs : Store) (h : Hub) (clientID : String) : Store × Hub :=
  match mapLookup cs clientID with
  | none => (cs, h)
  | some c => if c.closed then (cs, h) else closeBody cs h clientID c

/-- Effects the read loop hands to the rest of the system for one decoded
inbound frame: a room broadcast or a direct send to the session itself. -/
inductive ReadAction where
  | broadcast : Message → String → ReadAction
  | sendSelf : Message → ReadAction
deriving DecidableEq, Repr

/-- client.go readPump handling of one successfully decoded frame: the
From field is overwritten with the session id before the type dispatch;
offer, answer and ice-candidate are broadcast excluding self; chat is
broadcast excluding nobody; join broadcasts a user-joined excluding self
and answers the session with a fresh user-list of the other members;
anything else is logged and dropped. -/
def handleInbound (selfID : String) (memberIDs : List String) (m0 : Message) :
    List ReadAction :=
  let m : Message := { m0 with fromID := selfID }
  if m.type = "offer" ∨ m.type = "answer" ∨ m.type = "ice-candidate" then
    [ReadAction.broadcast m selfID]
  else if m.type = "chat" then
    [ReadAction.broadcast m ""]
  else if m.type = "join" then
    [ReadAction.broadcast (userJoinedMsg selfID) selfID,
     ReadAction.sendSelf (userListMsg selfID (memberIDs.filter (fun x => decide (x ≠ selfID))))]
  else []

/-- Byte-order comparison of character lists, the order in which Go
json.Marshal emits map keys. -/
def keyLtB : List Char → List Char → Bool
  | _, [] => false
  | [], _ :: _ => true
  | a :: as, b :: bs =>
    if a.toNat < b.toNat then true
    else if b.toNat < a.toNat then false
    else keyLtB as bs

/-- Byte-order comparison of strings. -/
def keyLt (a b : String) : Bool := keyLtB a.data b.data

/-- Insertion into a key-sorted association list (byte order on keys). -/
def insertByKey (p : String × JPrim) : List (String × JPrim) → List (String × JPrim)
  | [] => [p]
  | q :: rest => if keyLt q.1 p.1 then q :: insertByKey p rest else p :: q :: rest

/-- Canonical key-sorted form of the Go data map, the order in which
json.Marshal emits map keys. -/
def sortByKey (l : List (String × JPrim)) : List (String × JPrim) :=
  l.foldr insertByKey []

/-- Go json.Marshal of a Message: struct fields in declaration order,
omitempty fields dropped at their zero value (empty string, empty map,
false), map keys emitted in sorted order. -/
def encodeMessage (m : Message) : List (String × JLit) :=
  [("type", JLit.jStr m.type)]
  ++ (if m.fromID = "" then [] else [("from", JLit.jStr m.fromID)])
  ++ (if m.toID = "" then [] else [("to", JLit.jStr m.toID)])
  ++ (if m.data = [] then [] else [("data", JLit.jObj (sortByKey m.data))])
  ++ (if m.isHost then [("isHost", JLit.jBool true)] else [])

/-- JSON object field access, later duplicates winning as in Go
json.Unmarshal. -/
def jfield : List (String × JLit) → String → Option JLit
  | [], _ => none
  | (k2, v) :: rest, k =>
    match jfield rest k with
    | some w => some w
    | none => if k2 = k then some v else none

/-- Go json.Unmarshal of a string struct field: absent leaves the zero
value, a non-string value is a decode error. -/
def decodeStr (kvs : List (String × JLit)) (k : String) : Option String :=
  match jfield kvs k with
  | none => some ""
  | some (JLit.jStr s) => some s
  | some _ => none

/-- Go json.Unmarshal of the data map: absent leaves a nil map, an object
decodes to the canonical form of that map, anything else is an error. -/
def decodeData (kvs : List (String × JLit)) : Option (List (String × JPrim)) :=
  match jfield kvs "data" with
  | none => some []
  | some (JLit.jObj d) => some (sortByKey d)
  | some _ => none

/-- Go json.Unmarshal of the isHost field. -/
def decodeIsHost (kvs : List (String × JLit)) : Option Bool :=
  match jfield kvs "isHost" with
  | none => some false
  | some (JLit.jBool b) => some b
  | some _ => none

/-- Go json.Unmarshal into a Message. -/
def decodeMessage (kvs : List (String × JLit)) : Option Message :=
  match decodeStr kvs "type", decodeStr kvs "from", decodeStr kvs "to",
        decodeData kvs, decodeIsHost kvs with
  | some t, some f, some t2, some d, some ih =>
    some { type := t, fromID := f, toID := t2, data := d, isHost := ih }
  | _, _, _, _, _ => none

/-- One operation of the Room membership API, as quantified over by the
room invariant: AddMember, RemoveMember, SetHost. -/
inductive Op where
  | add : Client → Op
  | remove : String → Op
  | setHost : String → Op
deriving DecidableEq, Repr

/-- Heap state reached after running one Room API operation, whether the
call returned or its goroutine blocked (mutations before the blocking
point are part of the heap either way). -/
def applyOp (s : Store × Room) (op : Op) : Store × Room :=
  match op with
  | .add c => stateOf (Room.AddClient s.1 s.2 c)
  | .remove id => (s.1, Room.RemoveClient s.2 id)
  | .setHost id =>
    let t := stateOf (Room.SetHost s.1 s.2 id)
    (t.1, t.2.1)

/-- Heap state after a sequence of Room API operations. -/
def runOps (s : Store × Room) (ops : List Op) : Store × Room :=
  ops.foldl applyOp s

/-- The ids handed to AddMember along a sequence of operations. -/
def addedIDs (ops : List Op) : List String :=
  ops.filterMap (fun op => match op with | .add c => some c.id | _ => none)

/-- A fresh, never-host client as NewClient builds one. -/
def mkClient (id roomID : String) : Client :=
  { id := id, roomID := roomID, isHost := false, closed := false,
    sendClosed := false, pending := [] }

/-- A placeholder payload message used to fill queues in the concrete
scenarios. -/
def pingMsg : Message := { type := "chat", fromID := "x" }

/-- A session whose outbound queue holds exactly sendCapacity pending
messages, none drained, and whose closed flag is false. -/
def clientFull : Client :=
  { mkClient "a" "r1" with pending := List.replicate sendCapacity pingMsg }

/-- A chat message as the read loop of session a stamps it before
broadcasting with empty exclusion. -/
def chatFromA : Message :=
  { type := "chat", fromID := "a", data := [("text", JPrim.jpStr "hi")] }

/-- Store with the two members of the concrete two-client room. -/
def storeAB : Store := [("a", mkClient "a" "r1"), ("b", mkClient "b" "r1")]

/-- Two-client room with host a and the stamped chat of a queued. -/
def roomABChat : Room :=
  { id := "r1", clients := ["a", "b"], hostID := "a", broadcastQ := [chatFromA] }

/-- A client whose host flag is already set, so that Client.SetHost true
returns without touching its mutex twice. -/
def clientAHost : Client := { mkClient "a" "r1" with isHost := true }

/-- Store for the explicit SetHost scenario: a is host (flag set), b is a
plain member. -/
def storeSetHost : Store := [("a", clientAHost), ("b", mkClient "b" "r1")]

/-- Room for the explicit SetHost scenario. -/
def roomSetHostEx : Room := { id := "r1", clients := ["a", "b"], hostID := "a" }

/-- Store of the single-member close scenario. -/
def storeClose : Store := [("a", mkClient "a" "r1")]

/-- Hub of the single-member close scenario: room r1 with only member a. -/
def hubClose : Hub := ⟨[("r1", { id := "r1", clients := ["a"], hostID := "a" })]⟩

/-- A message with every field populated, data in canonical sorted order,
for the round-trip witness. -/
def msgSample : Message :=
  { type := "host-change", fromID := "a", toID := "b",
    data := [("hostId", JPrim.jpStr "a"), ("isHost", JPrim.jpBool true)],
    isHost := true }

theorem mapLookup_insert_self {α : Type} (m : List (String × α)) (k : String) (v : α) :
    mapLookup (mapInsert m k v) k = some v := by
  induction m with
  | nil => simp [mapInsert, mapLookup]
  | cons p rest ih =>
    obtain ⟨k2, v2⟩ := p
    by_cases h : k2 = k
    · simp [mapInsert, h, mapLookup]
    · simp [mapInsert, h, mapLookup, ih]

theorem not_mem_keys_mapErase {α : Type} (m : List (String × α)) (k : String) :
    k ∉ (mapErase m k).map (fun p => p.1) := by
  intro hmem
  rcases List.mem_map.mp hmem with ⟨p, hp, hk⟩
  rcases List.mem_filter.mp hp with ⟨_, hdec⟩
  exact of_decide_eq_true hdec hk

theorem Client.SetHost_eq (c : Client) (h : Bool) :
    (c.isHost = h ∧ Client.SetHost c h = .ok (c, [])) ∨
    (c.isHost ≠ h ∧ Client.SetHost c h = .deadlock ({ c with isHost := h }, [])) := by
  by_cases hh : c.isHost = h
  · exact Or.inl ⟨hh, by simp [Client.SetHost, hh]⟩
  · exact Or.inr ⟨hh, by simp [Client.SetHost, hh, Client.Send]⟩

theorem AddClient_clients (cs : Store) (r : Room) (c : Client) :
    (stateOf (Room.AddClient cs r c)).2.clients = insertID r.clients c.id := by
  simp only [Room.AddClient]
  split_ifs with h1 h2
  · rcases Client.SetHost_eq c true with ⟨_, heq⟩ | ⟨_, heq⟩ <;> rw [heq] <;> rfl
  · cases hsend : Client.Send false c (hostChangeExistingMsg r.hostID) <;> rfl
  · rfl

theorem AddClient_hostID (cs : Store) (r : Room) (c : Client) :
    (stateOf (Room.AddClient cs r c)).2.hostID = r.hostID ∨
    (stateOf (Room.AddClient cs r c)).2.hostID = c.id := by
  simp only [Room.AddClient]
  split_ifs with h1 h2
  · rcases Client.SetHost_eq c true with ⟨_, heq⟩ | ⟨_, heq⟩ <;> rw [heq] <;>
      exact Or.inr rfl
  · cases hsend : Client.Send false c (hostChangeExistingMsg r.hostID) <;> exact Or.inl rfl
  · exact Or.inl rfl

theorem RemoveClient_clients_eq (r : Room) (cid : String) :
    (Room.RemoveClient r cid).clients = r.clients ∨
    (Room.RemoveClient r cid).clients = r.clients.filter (fun x => decide (x ≠ cid)) := by
  simp only [Room.RemoveClient]
  split_ifs with h1 h2
  · split
    · exact Or.inr rfl
    · exact Or.inr rfl
  · exact Or.inr rfl
  · exact Or.inl rfl

theorem RemoveClient_hostID (r : Room) (cid : String) :
    (Room.RemoveClient r cid).hostID = r.hostID ∨
    (Room.RemoveClient r cid).hostID ∈ r.clients := by
  simp only [Room.RemoveClient]
  split_ifs with h1 h2
  · split
    · rename_i a rest heq
      refine Or.inr ?_
      show a ∈ r.clients
      have hmem : a ∈ r.clients.filter (fun x => decide (x ≠ cid)) := by
        rw [heq]
        exact List.mem_cons_self _ _
      exact (List.mem_filter.mp hmem).1
    · exact Or.inl rfl
  · exact Or.inl rfl
  · exact Or.inl rfl

theorem setHostStep1_room (cs : Store) (r : Room) (cid : String) :
    (stateOf (setHostStep1 cs r cid)).2.clients = r.clients ∧
    (stateOf (setHostStep1 cs r cid)).2.hostID = r.hostID := by
  simp only [setHostStep1]
  cases mapLookup cs cid with
  | none => exact ⟨rfl, rfl⟩
  | some cl =>
    dsimp only
    rcases Client.SetHost_eq cl true with ⟨_, heq⟩ | ⟨_, heq⟩ <;> rw [heq] <;>
      exact ⟨rfl, rfl⟩

theorem setHostStep2_room (cs : Store) (r : Room) (ph cid : String) :
    (stateOf (setHostStep2 cs r ph cid)).2.clients = r.clients ∧
    (stateOf (setHostStep2 cs r ph cid)).2.hostID = r.hostID := by
  simp only [setHostStep2]
  split_ifs with h1
  · cases mapLookup cs ph with
    | none => exact ⟨rfl, rfl⟩
    | some prev =>
      dsimp only
      rcases Client.SetHost_eq prev false with ⟨_, heq⟩ | ⟨_, heq⟩ <;> rw [heq] <;>
        exact ⟨rfl, rfl⟩
  · exact ⟨rfl, rfl⟩

theorem SetHost_room (cs : Store) (r : Room) (cid : String) :
    (stateOf (Room.SetHost cs r cid)).2.1.clients = r.clients ∧
    ((stateOf (Room.SetHost cs r cid)).2.1.hostID = r.hostID ∨
     ((stateOf (Room.SetHost cs r cid)).2.1.hostID = cid ∧ cid ∈ r.clients)) := by
  simp only [Room.SetHost]
  split_ifs with hmem
  · cases h1 : setHostStep1 cs { r with hostID := cid } cid with
    | deadlock s =>
      obtain ⟨s1, s2⟩ := s
      have hr := setHostStep1_room cs { r with hostID := cid } cid
      rw [h1] at hr
      simp only [stateOf] at hr
      exact ⟨hr.1, Or.inr ⟨hr.2, hmem⟩⟩
    | ok s =>
      obtain ⟨cs2, r2⟩ := s
      dsimp only
      have hr1 := setHostStep1_room cs { r with hostID := cid } cid
      rw [h1] at hr1
      simp only [stateOf] at hr1
      cases h2 : setHostStep2 cs2 r2 r.hostID cid with
      | deadlock s =>
        obtain ⟨cs3, r3⟩ := s
        have hr2 := setHostStep2_room cs2 r2 r.hostID cid
        rw [h2] at hr2
        simp only [stateOf] at hr2
        exact ⟨hr2.1.trans hr1.1, Or.inr ⟨hr2.2.trans hr1.2, hmem⟩⟩
      | ok s =>
        obtain ⟨cs3, r3⟩ := s
        dsimp only
        have hr2 := setHostStep2_room cs2 r2 r.hostID cid
        rw [h2] at hr2
        simp only [stateOf] at hr2
        cases h3 : sendHostChangeAll cs3 r3.clients r3.hostID with
        | ok cs4 => exact ⟨hr2.1.trans hr1.1, Or.inr ⟨hr2.2.trans hr1.2, hmem⟩⟩
        | deadlock cs4 => exact ⟨hr2.1.trans hr1.1, Or.inr ⟨hr2.2.trans hr1.2, hmem⟩⟩
  · exact ⟨rfl, Or.inl rfl⟩

theorem runOps_hostEver (ops : List Op) :
    ∀ (cs : Store) (r : Room) (S : List String),
      (∀ x, x ∈ r.clients → x ∈ S) →
      (r.hostID ≠ "" → r.hostID ∈ S) →
      (∀ x, x ∈ (runOps (cs, r) ops).2.clients → x ∈ S ++ addedIDs ops) ∧
      ((runOps (cs, r) ops).2.hostID ≠ "" →
        (runOps (cs, r) ops).2.hostID ∈ S ++ addedIDs ops) := by
  induction ops with
  | nil =>
    intro cs r S hc hh
    constructor
    · intro x hx
      simp only [runOps, List.foldl_nil] at hx
      simp only [addedIDs, List.filterMap_nil, List.append_nil]
      exact hc x hx
    · intro hne
      simp only [runOps, List.foldl_nil] at hne ⊢
      simp only [addedIDs, List.filterMap_nil, List.append_nil]
      exact hh hne
  | cons op ops ih =>
    intro cs r S hc hh
    have hstep : runOps (cs, r) (op :: ops) = runOps (applyOp (cs, r) op) ops := rfl
    rw [hstep]
    cases op with
    | add c =>
      have hcl := AddClient_clients cs r c
      have hhost := AddClient_hostID cs r c
      have h1 : ∀ x, x ∈ (stateOf (Room.AddClient cs r c)).2.clients → x ∈ S ++ [c.id] := by
        intro x hx
        rw [hcl] at hx
        unfold insertID at hx
        by_cases hin : c.id ∈ r.clients
        · rw [if_pos hin] at hx
          exact List.mem_append_left _ (hc x hx)
        · rw [if_neg hin] at hx
          rcases List.mem_append.mp hx with hmem | hmem
          · exact List.mem_append_left _ (hc x hmem)
          · exact List.mem_append_right _ hmem
      have h2 : (stateOf (Room.AddClient cs r c)).2.hostID ≠ "" →
          (stateOf (Room.AddClient cs r c)).2.hostID ∈ S ++ [c.id] := by
        intro hne
        rcases hhost with he | he
        · rw [he] at hne ⊢
          exact List.mem_append_left _ (hh hne)
        · rw [he]
          exact List.mem_append_right _ (List.mem_singleton.mpr rfl)
      have hmain := ih (stateOf (Room.AddClient cs r c)).1
        (stateOf (Room.AddClient cs r c)).2 (S ++ [c.id]) h1 h2
      have hadd : addedIDs (Op.add c :: ops) = c.id :: addedIDs ops := rfl
      rw [hadd]
      constructor
      · intro x hx
        have hres := hmain.1 x hx
        simpa [List.append_assoc] using hres
      · intro hne
        have hres := hmain.2 hne
        simpa [List.append_assoc] using hres
    | remove id =>
      have h1 : ∀ x, x ∈ (Room.RemoveClient r id).clients → x ∈ S := by
        intro x hx
        rcases RemoveClient_clients_eq r id with he | he
        · rw [he] at hx
          exact hc x hx
        · rw [he] at hx
          exact hc x (List.mem_filter.mp hx).1
      have h2 : (Room.RemoveClient r id).hostID ≠ "" →
          (Room.RemoveClient r id).hostID ∈ S := by
        intro hne
        rcases RemoveClient_hostID r id with he | he
        · rw [he] at hne ⊢
          exact hh hne
        · exact hc _ he
      have hmain := ih cs (Room.RemoveClient r id) S h1 h2
      have hadd : addedIDs (Op.remove id :: ops) = addedIDs ops := rfl
      rw [hadd]
      exact hmain
    | setHost id =>
      have hsr := SetHost_room cs r id
      have h1 : ∀ x, x ∈ (stateOf (Room.SetHost cs r id)).2.1.clients → x ∈ S := by
        intro x hx
        rw [hsr.1] at hx
        exact hc x hx
      have h2 : (stateOf (Room.SetHost cs r id)).2.1.hostID ≠ "" →
          (stateOf (Room.SetHost cs r id)).2.1.hostID ∈ S := by
        intro hne
        rcases hsr.2 with he | ⟨he, hm⟩
        · rw [he] at hne ⊢
          exact hh hne
        · rw [he]
          exact hc _ hm
      have hmain := ih (stateOf (Room.SetHost cs r id)).1
        (stateOf (Room.SetHost cs r id)).2.1 S h1 h2
      have hadd : addedIDs (Op.setHost id :: ops) = addedIDs ops := rfl
      rw [hadd]
      exact hmain

theorem jfield_append (l1 l2 : List (String × JLit)) (k : String) :
    jfield (l1 ++ l2) k =
      match jfield l2 k with
      | some w => some w
      | none => jfield l1 k := by
  induction l1 with
  | nil =>
    cases h : jfield l2 k <;> simp [jfield, h]
  | cons p rest ih =>
    obtain ⟨k2, v⟩ := p
    simp only [List.cons_append, jfield, ih]
    cases h : jfield l2 k <;> cases h2 : jfield rest k <;> simp [ih, h, h2]

/-- C1: for a session whose outbound queue holds 100 pending messages,
none drained, closed flag false, the spec says Send closes the whole
session.  The source instead blocks forever: Send still holds the session
mutex when it calls Close, whose first statement locks the same
non-reentrant mutex; the closed flag stays false, the message is not
enqueued, and the session never transitions to closed. -/
theorem C1_send_on_full_queue_blocks :
    clientFull.pending.length = sendCapacity ∧
    clientFull.closed = false ∧
    Client.Send false clientFull pingMsg = Res.deadlock clientFull ∧
    (stateOf (Client.Send false clientFull pingMsg)).closed = false := by
  decide

/-- C2 counterexample: in a room with members a and b, the chat message
stamped From a and broadcast with empty exclusion identifier is not
delivered to its sender a, although the claim says empty exclusion
excludes nobody: the delivery loop skips the client whose id equals the
non-empty From field. -/
theorem C2_counterexample :
    "a" ∈ roomABChat.clients ∧
    roomABChat.broadcastQ = [chatFromA] ∧
    ¬ ("a" ∈ deliverRecipients roomABChat.clients chatFromA) ∧
    Room.broadcastStep storeAB roomABChat =
      Res.ok ([("a", mkClient "a" "r1"),
               ("b", { mkClient "b" "r1" with pending := [chatFromA] })],
              { roomABChat with broadcastQ := [] }) := by
  decide

/-- C2 amended: Broadcast only enqueues the message and its
excludeClientID argument has no effect on state or delivery (the source
uses it only for a log line); one broadcastLoop iteration delivers the
message to exactly the members present at delivery time whose id differs
from the non-empty From field of the message; in particular a member
added after enqueue but before delivery receives it unless its id equals
From, and a chat message, stamped with the sender id in From, reaches
every member except its sender even with empty exclusion. -/
theorem C2_broadcast_delivery (r : Room) (m : Message) (e1 e2 : String) :
    Room.Broadcast r m e1 = Room.Broadcast r m e2 ∧
    (Room.Broadcast r m e1).broadcastQ = r.broadcastQ ++ [m] ∧
    (Room.Broadcast r m e1).clients = r.clients ∧
    (∀ ids id, id ∈ ids → (m.fromID = "" ∨ m.fromID ≠ id) →
      id ∈ deliverRecipients ids m) ∧
    (∀ ids id, id ∈ deliverRecipients ids m →
      id ∈ ids ∧ (m.fromID = "" ∨ m.fromID ≠ id)) := by
  refine ⟨rfl, rfl, rfl, ?_, ?_⟩
  · intro ids id hin hok
    refine List.mem_filter.mpr ⟨hin, ?_⟩
    rcases hok with h | h <;> simp [h]
  · intro ids id hin
    obtain ⟨h1, h2⟩ := List.mem_filter.mp hin
    refine ⟨h1, ?_⟩
    have h3 := of_decide_eq_true h2
    by_cases hz : m.fromID = ""
    · exact Or.inl hz
    · refine Or.inr ?_
      intro heq
      exact h3 ⟨heq, hz⟩

theorem C2_broadcast_delivery_witness :
    ("b" ∈ deliverRecipients ["a", "b"] chatFromA) ∧
    ("b" ∈ ["a", "b"] ∧ (chatFromA.fromID = "" ∨ chatFromA.fromID ≠ "b")) :=
  ⟨(C2_broadcast_delivery roomABChat chatFromA "" "").2.2.2.1 ["a", "b"] "b"
      (by decide) (by decide),
   (C2_broadcast_delivery roomABChat chatFromA "" "").2.2.2.2 ["a", "b"] "b"
      (by decide)⟩

/-- C3 counterexample: from a fresh room, AddMember of client a (a call
that completes, since the host flag of this client is already set)
followed by RemoveMember of a leaves an empty membership with the host
identifier still a: the host id is non-empty yet names no current
member. -/
theorem C3_counterexample :
    Res.isOk (Room.AddClient [] (freshRoom "r1") clientAHost) = true ∧
    (runOps ([], freshRoom "r1") [Op.add clientAHost, Op.remove "a"]).2.hostID = "a" ∧
    (runOps ([], freshRoom "r1") [Op.add clientAHost, Op.remove "a"]).2.clients = [] ∧
    ¬ ((runOps ([], freshRoom "r1") [Op.add clientAHost, Op.remove "a"]).2.hostID = "" ∨
       (runOps ([], freshRoom "r1") [Op.add clientAHost, Op.remove "a"]).2.hostID ∈
         (runOps ([], freshRoom "r1") [Op.add clientAHost, Op.remove "a"]).2.clients) := by
  decide

/-- C3 amended: for every Room state reachable by any sequence of
AddMember, RemoveMember and SetHost operations from a fresh room, a
non-empty host identifier names a client that was inserted by some
earlier AddMember (a current or former member); after the last member
leaves, the identifier may go stale and name a former member. -/
theorem C3_host_ever_member (ops : List Op) (cs : Store) (rid : String)
    (hne : (runOps (cs, freshRoom rid) ops).2.hostID ≠ "") :
    (runOps (cs, freshRoom rid) ops).2.hostID ∈ addedIDs ops := by
  have h := runOps_hostEver ops cs (freshRoom rid) []
    (fun x hx => absurd hx (List.not_mem_nil x))
    (fun hne2 => absurd rfl hne2)
  have h2 := h.2 hne
  simpa using h2

theorem C3_host_ever_member_witness :
    (runOps ([], freshRoom "r1") [Op.add clientAHost]).2.hostID ∈
      addedIDs [Op.add clientAHost] :=
  C3_host_ever_member [Op.add clientAHost] [] "r1" (by decide)

/-- C5: the first AddMember on a fresh room records the newcomer as host
and flips its host flag, but the promised host-status notification is
never sent: Client.SetHost calls Send while holding the client mutex, so
the goroutine blocks forever with the notification never enqueued (the
pending queue of the stored client stays empty) and AddClient never
returns.  The second conjunct shows the other half of the claim behaving
as specified: a newcomer joining a room with a host already set completes
and is sent a host-change announcing the existing host. -/
theorem C5_first_add_blocks_before_host_status :
    (Room.AddClient [] (freshRoom "r1") (mkClient "a" "r1") =
      Res.deadlock ([("a", { mkClient "a" "r1" with isHost := true })],
                    { freshRoom "r1" with clients := ["a"], hostID := "a" }) ∧
     ({ mkClient "a" "r1" with isHost := true } : Client).pending = []) ∧
    Room.AddClient [("a", clientAHost)]
        { freshRoom "r1" with clients := ["a"], hostID := "a" } (mkClient "b" "r1") =
      Res.ok ([("a", clientAHost),
               ("b", { mkClient "b" "r1" with pending := [hostChangeExistingMsg "a"] })],
              { freshRoom "r1" with clients := ["a", "b"], hostID := "a" }) := by
  decide

/-- C6: SetHost on a non-member returns false with no mutation, as
claimed; but the successful path of the claim is unreachable whenever the
new host flag actually changes: Room.SetHost calls Client.SetHost true,
which flips the flag and then blocks forever in its nested Send on the
held client mutex, before any host-change is enqueued to anybody (the
pending queue of the new host and the broadcast queue stay empty) and
before the boolean true can be returned. -/
theorem C6_sethost_blocks_before_notify :
    Room.SetHost storeSetHost roomSetHostEx "z" =
      Res.ok (storeSetHost, roomSetHostEx, false) ∧
    Room.SetHost storeSetHost roomSetHostEx "b" =
      Res.deadlock ([("a", clientAHost),
                     ("b", { mkClient "b" "r1" with isHost := true })],
                    { roomSetHostEx with hostID := "b" }, false) ∧
    ({ mkClient "b" "r1" with isHost := true } : Client).pending = [] ∧
    ({ roomSetHostEx with hostID := "b" } : Room).broadcastQ = [] := by
  decide

/-- C4: when the removed client was the current host and at least one
member remains, RemoveMember elects exactly one remaining member (the
first in map iteration order) as the new host, that host is one of the
remaining members, exactly one host-change announcing it is pushed on the
broadcast channel, and its delivery excludes nobody: whatever the
membership is at delivery time, every member receives it (the message
carries an empty From field). -/
theorem C4_host_reassignment (r : Room) (cid : String)
    (hmem : cid ∈ r.clients) (hhost : cid = r.hostID)
    (hrem : r.clients.filter (fun x => decide (x ≠ cid)) ≠ []) :
    (Room.RemoveClient r cid).clients = r.clients.filter (fun x => decide (x ≠ cid)) ∧
    (Room.RemoveClient r cid).hostID ∈ (Room.RemoveClient r cid).clients ∧
    (Room.RemoveClient r cid).broadcastQ =
      r.broadcastQ ++ [hostChangeNewHostMsg (Room.RemoveClient r cid).hostID] ∧
    (∀ ids, deliverRecipients ids (hostChangeNewHostMsg (Room.RemoveClient r cid).hostID) = ids) := by
  have hcond : cid = r.hostID ∧ r.clients.filter (fun x => decide (x ≠ cid)) ≠ [] :=
    ⟨hhost, hrem⟩
  rcases List.exists_cons_of_ne_nil hrem with ⟨a, rest, heq⟩
  have hred : Room.RemoveClient r cid =
      { r with clients := r.clients.filter (fun x => decide (x ≠ cid)), hostID := a,
               broadcastQ := r.broadcastQ ++ [hostChangeNewHostMsg a] } := by
    simp only [Room.RemoveClient, if_pos hmem, if_pos hcond]
    rw [heq]
  rw [hred]
  refine ⟨rfl, ?_, rfl, ?_⟩
  · show a ∈ r.clients.filter (fun x => decide (x ≠ cid))
    rw [heq]
    exact List.mem_cons_self _ _
  · intro ids
    refine List.filter_eq_self.mpr ?_
    intro b hb
    simp [hostChangeNewHostMsg]

theorem C4_host_reassignment_witness :
    (Room.RemoveClient roomSetHostEx "a").clients =
      roomSetHostEx.clients.filter (fun x => decide (x ≠ "a")) ∧
    (Room.RemoveClient roomSetHostEx "a").hostID ∈ (Room.RemoveClient roomSetHostEx "a").clients ∧
    (Room.RemoveClient roomSetHostEx "a").broadcastQ =
      roomSetHostEx.broadcastQ ++
        [hostChangeNewHostMsg (Room.RemoveClient roomSetHostEx "a").hostID] ∧
    (∀ ids, deliverRecipients ids
      (hostChangeNewHostMsg (Room.RemoveClient roomSetHostEx "a").hostID) = ids) :=
  C4_host_reassignment roomSetHostEx "a" (by decide) (by decide) (by decide)

/-- C7: Close is idempotent: the first invocation runs the close sequence
body once (user-left broadcast, queue close, removal from the room,
conditional room pruning); a second or later invocation finds the closed
flag set and returns with the store and the hub exactly as the first
invocation left them. -/
theorem C7_close_idempotent (cs : Store) (h : Hub) (clientID : String) :
    Client.Close (Client.Close cs h clientID).1 (Client.Close cs h clientID).2 clientID =
      Client.Close cs h clientID := by
  cases hl : mapLookup cs clientID with
  | none =>
    have h1 : Client.Close cs h clientID = (cs, h) := by
      simp [Client.Close, hl]
    rw [h1]
    simp [Client.Close, hl]
  | some c =>
    by_cases hc : c.closed
    · have h1 : Client.Close cs h clientID = (cs, h) := by
        simp [Client.Close, hl, hc]
      rw [h1]
      simp [Client.Close, hl, hc]
    · have h1 : Client.Close cs h clientID = closeBody cs h clientID c := by
        simp [Client.Close, hl, hc]
      rw [h1]
      have h3 : mapLookup (closeBody cs h clientID c).1 clientID =
          some { c with closed := true, sendClosed := true } :=
        mapLookup_insert_self _ _ _
      simp [Client.Close, h3]

/-- C8: RemoveRoom removes the registry entry exactly when the room is
registered with zero members; it is a no-op when the room is non-empty
and when it is absent; and after the last member of a room runs its close
sequence, the room id no longer appears among the active room ids. -/
theorem C8_remove_room_iff_empty :
    (∀ (h : Hub) (rid : String), mapLookup h.rooms rid = none →
      Hub.RemoveRoom h rid = h) ∧
    (∀ (h : Hub) (rid : String) (r : Room), mapLookup h.rooms rid = some r →
      r.clients ≠ [] → Hub.RemoveRoom h rid = h) ∧
    (∀ (h : Hub) (rid : String) (r : Room), mapLookup h.rooms rid = some r →
      r.clients = [] →
      (Hub.RemoveRoom h rid).rooms = mapErase h.rooms rid ∧
      rid ∉ Hub.GetActiveRooms (Hub.RemoveRoom h rid)) ∧
    (∀ (cs : Store) (h : Hub) (cid : String) (c : Client) (r : Room),
      mapLookup cs cid = some c → c.closed = false → c.id = cid →
      mapLookup h.rooms c.roomID = some r → r.clients = [cid] →
      c.roomID ∉ Hub.GetActiveRooms (Client.Close cs h cid).2) := by
  refine ⟨?_, ?_, ?_, ?_⟩
  · intro h rid hl
    simp [Hub.RemoveRoom, hl]
  · intro h rid r hl hne
    cases hcl : r.clients with
    | nil => exact absurd hcl hne
    | cons a t => simp [Hub.RemoveRoom, hl, hcl]
  · intro h rid r hl hcl
    have hres : Hub.RemoveRoom h rid = ⟨mapErase h.rooms rid⟩ := by
      simp [Hub.RemoveRoom, hl, hcl]
    rw [hres]
    exact ⟨rfl, not_mem_keys_mapErase h.rooms rid⟩
  · intro cs h cid c r hl hc hcid hr hcl
    have hclose : (Client.Close cs h cid).2 = closeRoomSide h c.roomID c.id := by
      simp [Client.Close, hl, hc, closeBody]
    rw [hclose]
    have hmem2 : c.id ∈ (Room.Broadcast r (userLeftMsg c.id) "").clients := by
      show c.id ∈ r.clients
      rw [hcl, hcid]
      exact List.mem_singleton.mpr rfl
    have hfilter : List.filter (fun x => decide (x ≠ c.id))
        (Room.Broadcast r (userLeftMsg c.id) "").clients = [] := by
      show List.filter (fun x => decide (x ≠ c.id)) r.clients = []
      rw [hcl, hcid]
      simp
    have hrc : (Room.RemoveClient (Room.Broadcast r (userLeftMsg c.id) "") c.id).clients = [] := by
      simp only [Room.RemoveClient]
      rw [hfilter]
      simp [hmem2]
    have hside : closeRoomSide h c.roomID c.id =
        ⟨mapErase (mapInsert h.rooms c.roomID
          (Room.RemoveClient (Room.Broadcast r (userLeftMsg c.id) "") c.id)) c.roomID⟩ := by
      simp only [closeRoomSide]
      rw [hr]
      dsimp only
      rw [List.isEmpty_iff.mpr hrc]
      simp [Hub.RemoveRoom, mapLookup_insert_self, hrc]
    rw [hside]
    exact not_mem_keys_mapErase _ _

theorem C8_remove_room_iff_empty_witness :
    "r1" ∉ Hub.GetActiveRooms (Client.Close storeClose hubClose "a").2 :=
  C8_remove_room_iff_empty.2.2.2 storeClose hubClose "a" (mkClient "a" "r1")
    { id := "r1", clients := ["a"], hostID := "a" } rfl rfl rfl rfl rfl

/-- C9: serializing a Message to its JSON wire form (struct fields in
declaration order, omitempty zero values dropped, map keys in canonical
sorted order) and decoding the result back yields the same Message: every
populated field, type, from, to, isHost and every key and value of data,
is preserved exactly.  The hypothesis states that the data association
list is in the canonical key-sorted form in which the Go map is
marshaled. -/
theorem C9_message_roundtrip (m : Message) (hcanon : sortByKey m.data = m.data) :
    decodeMessage (encodeMessage m) = some m := by
  obtain ⟨t, f, t2, d, ih⟩ := m
  simp only at hcanon
  unfold decodeMessage decodeStr decodeData decodeIsHost encodeMessage
  by_cases hf : f = "" <;> by_cases ht2 : t2 = "" <;> by_cases hd : d = [] <;> cases ih <;>
    simp [hf, ht2, hd, jfield_append, jfield, hcanon]

theorem C9_message_roundtrip_witness :
    sortByKey msgSample.data = msgSample.data ∧
    decodeMessage (encodeMessage msgSample) = some msgSample :=
  ⟨by decide, C9_message_roundtrip msgSample (by decide)⟩

/-- C10: for every successfully decoded inbound frame the read loop
overwrites the From field with the session id before the type dispatch,
so the emitted effects are identical for any From value the client
supplied, and every room broadcast produced from an inbound frame carries
the session id as From. -/
theorem C10_from_overwritten (selfID : String) (ids : List String) (m : Message) :
    (∀ f, handleInbound selfID ids { m with fromID := f } = handleInbound selfID ids m) ∧
    (∀ m2 x, ReadAction.broadcast m2 x ∈ handleInbound selfID ids m → m2.fromID = selfID) := by
  constructor
  · intro f
    cases m
    rfl
  · intro m2 x hmem
    unfold handleInbound at hmem
    dsimp only at hmem
    split_ifs at hmem with h1 h2 h3 <;> simp at hmem
    · rw [hmem.1]
    · rw [hmem.1]
    · rw [hmem.1]
      rfl

theorem C10_from_overwritten_witness :
    ({ type := "chat", fromID := "a" } : Message).fromID = "a" :=
  (C10_from_overwritten "a" ["a", "b"] { type := "chat", fromID := "spoof" }).2
    { type := "chat", fromID := "a" } "" (by decide)
